import Mathlib

/-!
Shallow embedding of the spec-check core (a Rust documentation/source
consistency checker) and proofs about its claims.

The embedding follows the repository sources:
  * `src/comparator.rs`   — `ComparisonResult`, `has_errors`, `find_first_diff`,
    `normalize_attributes`, `compare_items`;
  * `src/rust_parser.rs`  — `RustItem`, `ItemKind`, `should_include`,
    `calculate_line_number`, the `syn` visitor (`ItemCollector`) over a model of
    the syntax tree, and `parse_rust_file`;
  * `src/markdown_parser.rs` — `extract_rust_blocks` over a model of the
    pulldown-cmark event stream.

Rust machine details modelled explicitly: Rust `str::len()` is the UTF-8 byte
count (`utf8Len` below); `Vec::sort` on `String` sorts by byte order, which for
UTF-8 coincides with code-point (Char) order, modelled by an insertion sort on
the code-point order.
-/

/-- Kind of a collected declaration (src/rust_parser.rs, `enum ItemKind`).
`TraitMethod` carries the owning trait's name. -/
inductive ItemKind where
  | Struct
  | Enum
  | Trait
  | TraitMethod (trait_name : String)
  | Function
deriving DecidableEq

/-- One collected declaration (src/rust_parser.rs, `struct RustItem`).
In the source, `signature` is `quote!(#stripped_item).to_string()` and `tokens`
is the `TokenStream` itself; the comparator only ever uses
`tokens.to_string()`, so `tokens` is embedded as that rendered string. -/
structure RustItem where
  name : String
  kind : ItemKind
  signature : String
  tokens : String
  attributes : List String
  line_number : Nat
deriving DecidableEq

/-- Identity key of an item (src/comparator.rs builds map keys as
`(item.name.clone(), format!("{:?}", item.kind))`; the Debug rendering of
`ItemKind` is injective, so the pair `(name, kind)` is an equivalent key). -/
def itemKey (it : RustItem) : String × ItemKind :=
  (it.name, it.kind)

/-- Model of `str::len()`: the UTF-8 byte count of a Rust string. -/
def utf8Len (s : String) : Nat :=
  (s.data.map (fun c => c.utf8Size)).sum

/-- Model of `Iterator::position`: index of the first element satisfying `p`. -/
def positionAux (p : α → Bool) : List α → Option Nat
  | [] => none
  | a :: as => if p a then some 0 else (positionAux p as).map (· + 1)

/-- src/comparator.rs, `find_first_diff`: position of the first differing
character of the zipped char iterators, or, when one string is a prefix of the
other (byte lengths differ with no differing zipped char), the smaller byte
length; `None` when the strings are equal. -/
def find_first_diff (s1 s2 : String) : Option Nat :=
  match positionAux (fun p => p.1 != p.2) (s1.data.zip s2.data) with
  | some i => some i
  | none => if utf8Len s1 ≠ utf8Len s2 then some (min (utf8Len s1) (utf8Len s2)) else none

/-- Model of `List.isPrefixOf` on chars: `str::starts_with`. -/
def listIsPre : List Char → List Char → Bool
  | [], _ => true
  | _ :: _, [] => false
  | p :: ps, c :: cs => p == c && listIsPre ps cs

/-- Model of `str::contains` (substring anywhere). -/
def listIsSub (p : List Char) : List Char → Bool
  | [] => decide (p = [])
  | c :: cs => listIsPre p (c :: cs) || listIsSub p cs

/-- Rust `a.starts_with(pat)`. -/
def strStartsWith (a pat : String) : Bool :=
  listIsPre pat.data a.data

/-- Rust `a.contains(pat)`. -/
def strContains (a pat : String) : Bool :=
  listIsSub pat.data a.data

/-- Rust `str::trim`: drop leading and trailing whitespace characters. -/
def rustTrim (s : String) : String :=
  String.mk (((s.data.dropWhile Char.isWhitespace).reverse.dropWhile Char.isWhitespace).reverse)

/-- Code-point order on strings; equals Rust byte order on UTF-8 data. -/
def charListLe : List Char → List Char → Bool
  | [], _ => true
  | _ :: _, [] => false
  | a :: as, b :: bs =>
    if a.toNat < b.toNat then true
    else if b.toNat < a.toNat then false
    else charListLe as bs

/-- Rust `String` comparison `a <= b`. -/
def strLe (a b : String) : Bool :=
  charListLe a.data b.data

/-- Insert into a sorted list (helper for the model of `Vec::sort`). -/
def insertSorted (s : String) : List String → List String
  | [] => [s]
  | t :: ts => if strLe s t then s :: t :: ts else t :: insertSorted s ts

/-- Model of `Vec::sort` for `Vec<String>` (lexicographic byte order). -/
def sortStrings : List String → List String
  | [] => []
  | s :: ss => insertSorted s (sortStrings ss)

/-- src/comparator.rs, `normalize_attributes`: keep attributes in which no
ignored name occurs (the source tests substring containment plus two
starts-with shapes), trim each survivor, sort. -/
def normalize_attributes (attrs : List String) (ignored_attributes : List String) : List String :=
  sortStrings
    ((attrs.filter (fun a =>
      ! ignored_attributes.any (fun ignored =>
        strContains a ignored
          || strStartsWith a ("#[" ++ ignored ++ "(")
          || strStartsWith a ("#[" ++ ignored)))).map rustTrim)

/-- Mentioned for claim C7 only: the literal reading of the claim's words,
which filter by substring occurrence and sort, with no trimming step. -/
def normalize_attributes_claim (attrs : List String) (ignored_attributes : List String) : List String :=
  sortStrings
    (attrs.filter (fun a =>
      ! ignored_attributes.any (fun ignored => strContains a ignored)))

/-- src/comparator.rs, `struct SignatureMismatch`. -/
structure SignatureMismatch where
  code_item : RustItem
  spec_item : RustItem
  first_diff_pos : Option Nat
deriving DecidableEq

/-- src/comparator.rs, `struct AttributeMismatch`. -/
structure AttributeMismatch where
  code_item : RustItem
  spec_item : RustItem
deriving DecidableEq

/-- src/comparator.rs, `struct ComparisonResult`. -/
structure ComparisonResult where
  missing_in_spec : List RustItem
  missing_in_code : List RustItem
  signature_mismatches : List SignatureMismatch
  attribute_mismatches : List AttributeMismatch
deriving DecidableEq

/-- src/comparator.rs, `ComparisonResult::has_errors`. -/
def ComparisonResult.has_errors (r : ComparisonResult) : Bool :=
  !r.missing_in_spec.isEmpty
    || !r.missing_in_code.isEmpty
    || !r.signature_mismatches.isEmpty
    || !r.attribute_mismatches.isEmpty

/-- Lookup in the side maps of `compare_items`. The source inserts every item
of a list into a `HashMap` keyed by `itemKey` and then queries it; the value
found is the last inserted item with that key, which is what this fold
computes. -/
def lookupKey (items : List RustItem) (k : String × ItemKind) : Option RustItem :=
  items.foldl (fun acc it => if itemKey it = k then some it else acc) none

/-- src/comparator.rs, `compare_items`. The source iterates `code_items` once,
appending to `missing_in_spec` when the key is absent on the spec side and to
the two mismatch lists when present; then iterates `spec_items` for
`missing_in_code`. Each output list is rendered as the corresponding
filter/filterMap over the same iteration order. -/
def compare_items (code_items spec_items : List RustItem) (ignored_attributes : List String) : ComparisonResult :=
  { missing_in_spec :=
      code_items.filter (fun code_item => (lookupKey spec_items (itemKey code_item)).isNone)
  , missing_in_code :=
      spec_items.filter (fun spec_item => (lookupKey code_items (itemKey spec_item)).isNone)
  , signature_mismatches :=
      code_items.filterMap (fun code_item =>
        match lookupKey spec_items (itemKey code_item) with
        | some spec_item =>
          if code_item.tokens ≠ spec_item.tokens then
            some { code_item := code_item, spec_item := spec_item
                 , first_diff_pos := find_first_diff code_item.signature spec_item.signature }
          else none
        | none => none)
  , attribute_mismatches :=
      code_items.filterMap (fun code_item =>
        match lookupKey spec_items (itemKey code_item) with
        | some spec_item =>
          if normalize_attributes code_item.attributes ignored_attributes
              ≠ normalize_attributes spec_item.attributes ignored_attributes then
            some { code_item := code_item, spec_item := spec_item }
          else none
        | none => none) }

/-- Model of `syn::Visibility`: `Public` is the bare `pub` qualifier,
`Restricted` covers `pub(crate)`, `pub(super)` and `pub(in path)` (carrying the
path text), `Inherited` is the absence of a qualifier. -/
inductive Vis where
  | Public
  | Restricted (path : String)
  | Inherited
deriving DecidableEq

/-- src/rust_parser.rs, `ItemCollector::should_include`:
`self.check_private || matches!(vis, Visibility::Public(_))`. -/
def should_include (check_private : Bool) (vis : Vis) : Bool :=
  check_private || (match vis with | .Public => true | _ => false)

/-- First position at which `pat` occurs in `hay` (model of `str::find`). -/
def findSubstrPos (pat : List Char) : List Char → Option Nat
  | [] => if listIsPre pat [] then some 0 else none
  | c :: cs =>
    if listIsPre pat (c :: cs) then some 0
    else (findSubstrPos pat cs).map (· + 1)

/-- src/rust_parser.rs, `ItemCollector::calculate_line_number` (always called
with `search_start = 0`): find the identifier in the source text, count
newlines before it, 1-based; fall back to line 1 when absent. -/
def calculate_line_number (source_text ident_name : String) : Nat :=
  match findSubstrPos ident_name.data source_text.data with
  | some pos => (source_text.data.take pos).countP (fun c => c == '\n') + 1
  | none => 1

/-- The per-item data the visitor reads off a declaration node: its
visibility, identifier, top-level attribute renderings (`quote!(#attr)` texts,
in source order) and the rendering of the attribute-stripped node
(`quote!(#item_without_attrs).to_string()`), which the source stores as both
`signature` and `tokens`. -/
structure DeclData where
  vis : Vis
  name : String
  attrs : List String
  stripped : String
deriving DecidableEq

mutual
/-- Model of the `syn::Item` shapes the visitor can reach. `itemFn` carries
the items nested in the function's body (which the overridden `visit_item_fn`
never visits); `itemImpl` carries, in traversal order, the items nested inside
the bodies of the impl's methods (which the default `visit_item_impl` /
`visit_impl_item_fn` / `visit_block` chain does visit); `itemMod` carries an
inline module's content; `itemOther` stands for any other leaf item (use,
static, type alias, macro, extern crate, ...), for which no collector override
fires. -/
inductive SynItem where
  | itemStruct (d : DeclData)
  | itemEnum (d : DeclData)
  | itemTrait (d : DeclData) (members : TraitMembers)
  | itemFn (d : DeclData) (body : SynItems)
  | itemImpl (methodBodyItems : SynItems)
  | itemMod (vis : Vis) (items : SynItems)
  | itemOther

/-- A list of items (a module body, a function body, ...). -/
inductive SynItems where
  | nil
  | cons (i : SynItem) (rest : SynItems)

/-- Model of `syn::TraitItem`: a method signature (name, attribute renderings,
stripped rendering, and the items nested in its default body, which the
collector never visits), or an associated const/type/macro. -/
inductive TraitMember where
  | fnMember (name : String) (attrs : List String) (stripped : String) (defaultBody : SynItems)
  | constMember
  | typeMember
  | macroMember

/-- A list of trait members. -/
inductive TraitMembers where
  | nil
  | cons (m : TraitMember) (rest : TraitMembers)
end

/-- Build the `RustItem` the visitor pushes (`RustItem::new` with
`signature = tokens = stripped rendering` and the heuristic line number). -/
def mkItem (source_text name : String) (kind : ItemKind) (stripped : String) (attrs : List String) : RustItem :=
  { name := name
  , kind := kind
  , signature := stripped
  , tokens := stripped
  , attributes := attrs
  , line_number := calculate_line_number source_text name }

mutual
/-- src/rust_parser.rs, `impl Visit for ItemCollector`, dispatch on one item.
`visit_item_struct`/`visit_item_enum`/`visit_item_fn` are overridden and do not
recurse; `visit_item_trait` is overridden and loops over the trait's members
itself (so exactly one level into trait bodies); `visit_item_impl` and
`visit_item_mod` are not overridden, so the default visitor recurses into the
impl's method bodies and the module's content. The `current_trait` marker of
the source is always `None` when `visit_item_fn` runs (the overridden
`visit_item_trait` never calls back into the visitor), so it is omitted. -/
def collectItem (check_private : Bool) (source_text : String) : SynItem → List RustItem
  | .itemStruct d =>
    if should_include check_private d.vis then
      [mkItem source_text d.name .Struct d.stripped d.attrs]
    else []
  | .itemEnum d =>
    if should_include check_private d.vis then
      [mkItem source_text d.name .Enum d.stripped d.attrs]
    else []
  | .itemTrait d ms =>
    if should_include check_private d.vis then
      mkItem source_text d.name .Trait d.stripped d.attrs :: collectTraitMethods source_text d.name ms
    else []
  | .itemFn d _ =>
    if should_include check_private d.vis then
      [mkItem source_text d.name .Function d.stripped d.attrs]
    else []
  | .itemImpl methodBodyItems => collectItems check_private source_text methodBodyItems
  | .itemMod _ items => collectItems check_private source_text items
  | .itemOther => []

/-- Visit a list of items in order, appending what each pushes. -/
def collectItems (check_private : Bool) (source_text : String) : SynItems → List RustItem
  | .nil => []
  | .cons i rest => collectItem check_private source_text i ++ collectItems check_private source_text rest

/-- The manual loop in `visit_item_trait`: one `TraitMethod` record per
`TraitItem::Fn`, tagged with the owning trait's name; associated
consts/types/macros produce nothing; default bodies are never visited. -/
def collectTraitMethods (source_text trait_name : String) : TraitMembers → List RustItem
  | .nil => []
  | .cons (.fnMember n attrs stripped _) rest =>
    mkItem source_text n (.TraitMethod trait_name) stripped attrs :: collectTraitMethods source_text trait_name rest
  | .cons .constMember rest => collectTraitMethods source_text trait_name rest
  | .cons .typeMember rest => collectTraitMethods source_text trait_name rest
  | .cons .macroMember rest => collectTraitMethods source_text trait_name rest
end

/-- src/rust_parser.rs, `parse_rust_file`. The call to the third-party
`syn::parse_file` is modelled by taking its outcome as the argument: an error
message when the text is not syntactically valid Rust, or the syntax tree.
The function propagates the error (`?`) and otherwise runs the collector. -/
def parse_rust_file (parsed : Except String SynItems) (check_private : Bool) (source_text : String) :
    Except String (List RustItem) :=
  match parsed with
  | .error e => .error e
  | .ok syntax_tree => .ok (collectItems check_private source_text syntax_tree)

mutual
/-- Mentioned for claim C2 only: a collector that follows the spec's words,
walking module scope and one level into trait bodies and collecting nothing
from inside impl blocks. It differs from `collectItem` only on `itemImpl`. -/
def collectItemNoImpl (check_private : Bool) (source_text : String) : SynItem → List RustItem
  | .itemStruct d =>
    if should_include check_private d.vis then
      [mkItem source_text d.name .Struct d.stripped d.attrs]
    else []
  | .itemEnum d =>
    if should_include check_private d.vis then
      [mkItem source_text d.name .Enum d.stripped d.attrs]
    else []
  | .itemTrait d ms =>
    if should_include check_private d.vis then
      mkItem source_text d.name .Trait d.stripped d.attrs :: collectTraitMethods source_text d.name ms
    else []
  | .itemFn d _ =>
    if should_include check_private d.vis then
      [mkItem source_text d.name .Function d.stripped d.attrs]
    else []
  | .itemImpl _ => []
  | .itemMod _ items => collectItemsNoImpl check_private source_text items
  | .itemOther => []

def collectItemsNoImpl (check_private : Bool) (source_text : String) : SynItems → List RustItem
  | .nil => []
  | .cons i rest => collectItemNoImpl check_private source_text i ++ collectItemsNoImpl check_private source_text rest
end

mutual
/-- Erase the bodies the collector is claimed never to look into: the body of
every `fn` item and the default body of every trait method. Impl method-body
items and module contents are traversed, with the erasure applied inside. -/
def eraseFnBodies : SynItem → SynItem
  | .itemStruct d => .itemStruct d
  | .itemEnum d => .itemEnum d
  | .itemTrait d ms => .itemTrait d (eraseMemberBodies ms)
  | .itemFn d _ => .itemFn d .nil
  | .itemImpl body => .itemImpl (eraseFnBodiesList body)
  | .itemMod v items => .itemMod v (eraseFnBodiesList items)
  | .itemOther => .itemOther

/-- List version of `eraseFnBodies`. -/
def eraseFnBodiesList : SynItems → SynItems
  | .nil => .nil
  | .cons i rest => .cons (eraseFnBodies i) (eraseFnBodiesList rest)

/-- Erase trait-method default bodies. -/
def eraseMemberBodies : TraitMembers → TraitMembers
  | .nil => .nil
  | .cons (.fnMember n attrs stripped _) rest => .cons (.fnMember n attrs stripped .nil) (eraseMemberBodies rest)
  | .cons .constMember rest => .cons .constMember (eraseMemberBodies rest)
  | .cons .typeMember rest => .cons .typeMember (eraseMemberBodies rest)
  | .cons .macroMember rest => .cons .macroMember (eraseMemberBodies rest)
end

/-- Number of method signatures in a trait body. -/
def countFnMembers : TraitMembers → Nat
  | .nil => 0
  | .cons (.fnMember _ _ _ _) rest => countFnMembers rest + 1
  | .cons .constMember rest => countFnMembers rest
  | .cons .typeMember rest => countFnMembers rest
  | .cons .macroMember rest => countFnMembers rest

/-- Model of the pulldown-cmark events `extract_rust_blocks` matches on:
the start and end of a fenced code block (carrying the literal info-string
tag), a text event, and every other event (matched by the wildcard arm). -/
inductive MdEvent where
  | startFence (lang : String)
  | endFence (lang : String)
  | text (t : String)
  | other
deriving DecidableEq

/-- src/markdown_parser.rs, `extract_rust_blocks`, the event loop: the state
is the `in_rust_block` flag and the `current_block` accumulator. A start fence
tagged exactly `"rust"` sets the flag and clears the accumulator; the matching
end fence (tag `"rust"` while the flag is set) pushes the accumulator and
clears the flag (the source does not clear the accumulator there); text is
appended while the flag is set; everything else is ignored. -/
def extract_rust_blocks_go : List MdEvent → Bool → String → List String
  | [], _, _ => []
  | e :: es, in_rust_block, current_block =>
    match e with
    | .startFence lang =>
      if lang = "rust" then extract_rust_blocks_go es true ""
      else extract_rust_blocks_go es in_rust_block current_block
    | .endFence lang =>
      if lang = "rust" ∧ in_rust_block = true then
        current_block :: extract_rust_blocks_go es false current_block
      else extract_rust_blocks_go es in_rust_block current_block
    | .text t =>
      if in_rust_block then extract_rust_blocks_go es in_rust_block (current_block ++ t)
      else extract_rust_blocks_go es in_rust_block current_block
    | .other => extract_rust_blocks_go es in_rust_block current_block

/-- src/markdown_parser.rs, `extract_rust_blocks`: run the loop with the flag
clear and the accumulator empty. -/
def extract_rust_blocks (events : List MdEvent) : List String :=
  extract_rust_blocks_go events false ""

/-- The source wraps the block list in `Ok(...)`; it never produces an error
(every text is valid CommonMark, so there is no failing case). -/
def extract_rust_blocks_result (events : List MdEvent) : Except String (List String) :=
  .ok (extract_rust_blocks events)

/-- A block-level view of a documentation text: a fenced code block with its
info tag and its text events in order, a run of non-code text events, or any
other event. pulldown-cmark emits balanced streams: each fenced block becomes
a start event, its text events, and an end event carrying the same tag. -/
inductive MdBlock where
  | codeBlock (lang : String) (texts : List String)
  | textRun (texts : List String)
  | otherEvent
deriving DecidableEq

/-- The event stream pulldown-cmark emits for one block. -/
def blockEvents : MdBlock → List MdEvent
  | .codeBlock lang texts => MdEvent.startFence lang :: (texts.map MdEvent.text ++ [MdEvent.endFence lang])
  | .textRun texts => texts.map MdEvent.text
  | .otherEvent => [MdEvent.other]

/-- The event stream of a whole document. -/
def docEvents (doc : List MdBlock) : List MdEvent :=
  (doc.map blockEvents).flatten

/-- The accumulator contents after appending each text of `ts` in order
(`current_block.push_str(&text)` repeatedly). -/
def accAppend (cur : String) (ts : List String) : String :=
  ts.foldl (fun a b => a ++ b) cur

/-- The samples the claim expects: the concatenated text of every fenced block
whose tag is exactly `"rust"`, in document order. -/
def rustSamples (doc : List MdBlock) : List String :=
  doc.filterMap (fun b =>
    match b with
    | .codeBlock lang texts => if lang = "rust" then some (accAppend "" texts) else none
    | _ => none)

/-- Characters proc-macro2 lexes into one identifier-or-number token. -/
def isIdentChar (c : Char) : Bool :=
  c.isAlphanum || c = '_'

/-- Whitespace for the lexer model. -/
def isSpaceChar (c : Char) : Bool :=
  c = ' ' || c = '\t' || c = '\n' || c = '\r'

/-- Model of proc-macro2 lexing for attribute-free item source text: skip
whitespace, group maximal identifier character runs, keep every other
character as a one-character punctuation token. `cur` holds the reversed
pending identifier run. -/
def tokenizeGo : List Char → List Char → List String
  | [], cur => if cur.isEmpty then [] else [String.mk cur.reverse]
  | c :: cs, cur =>
    if isIdentChar c then tokenizeGo cs (c :: cur)
    else if isSpaceChar c then
      (if cur.isEmpty then [] else [String.mk cur.reverse]) ++ tokenizeGo cs []
    else
      (if cur.isEmpty then [] else [String.mk cur.reverse]) ++ (String.mk [c] :: tokenizeGo cs [])

/-- Token sequence of a piece of Rust source text (the structural content the
syn parse keeps; whitespace never reaches the token stream). -/
def rustTokens (s : String) : List String :=
  tokenizeGo s.data []

/-- Model of `TokenStream::to_string`: a deterministic rendering of the token
sequence (proc-macro2 prints the tokens separated by spaces). -/
def renderTokens (ts : List String) : String :=
  String.intercalate " " ts

/-- The `normalized_form`/`signature` the extractor derives for a declaration
given as source text: render its token sequence. -/
def normalized_form_of (s : String) : String :=
  renderTokens (rustTokens s)

/-- The `RustItem` the extractor produces for an attribute-free declaration
whose source text is `srcText`: `signature` and `tokens` are the rendering of
its parsed-and-reprinted token stream. -/
def parsedDeclItem (n : String) (k : ItemKind) (srcText : String) : RustItem :=
  { name := n
  , kind := k
  , signature := normalized_form_of srcText
  , tokens := normalized_form_of srcText
  , attributes := []
  , line_number := 1 }

/-! ### Helper lemmas -/

theorem should_include_iff (cp : Bool) (v : Vis) :
    should_include cp v = true ↔ (cp = true ∨ v = Vis.Public) := by
  cases cp <;> cases v <;> simp [should_include]

theorem lookupFold_of_not_mem (l : List RustItem) (k : String × ItemKind) (acc : Option RustItem)
    (h : ∀ it ∈ l, itemKey it ≠ k) :
    l.foldl (fun acc it => if itemKey it = k then some it else acc) acc = acc := by
  induction l generalizing acc with
  | nil => rfl
  | cons a t ih =>
    simp only [List.foldl_cons]
    rw [if_neg (h a (List.mem_cons_self a t))]
    exact ih acc (fun it hit => h it (List.mem_cons_of_mem a hit))

theorem lookupFold_self (l : List RustItem) (c : RustItem) :
    ∀ acc : Option RustItem, l.Pairwise (fun a b => itemKey a ≠ itemKey b) → c ∈ l →
    l.foldl (fun acc it => if itemKey it = itemKey c then some it else acc) acc = some c := by
  induction l with
  | nil => intro acc _ hc; cases hc
  | cons a t ih =>
    intro acc hd hc
    simp only [List.foldl_cons]
    rcases List.mem_cons.mp hc with rfl | hct
    · rw [if_pos rfl]
      exact lookupFold_of_not_mem t (itemKey c) (some c)
        (fun it hit => Ne.symm ((List.pairwise_cons.mp hd).1 it hit))
    · exact ih _ (List.pairwise_cons.mp hd).2 hct

theorem lookupKey_self (l : List RustItem) (c : RustItem)
    (hd : l.Pairwise (fun a b => itemKey a ≠ itemKey b)) (hc : c ∈ l) :
    lookupKey l (itemKey c) = some c :=
  lookupFold_self l c none hd hc

theorem lookupKey_singleton (c s : RustItem) (hk : itemKey c = itemKey s) :
    lookupKey [s] (itemKey c) = some s := by
  rw [hk]
  simp [lookupKey]

mutual
theorem collect_eraseFn (cp : Bool) (src : String) (i : SynItem) :
    collectItem cp src (eraseFnBodies i) = collectItem cp src i := by
  cases i with
  | itemStruct d => rfl
  | itemEnum d => rfl
  | itemTrait d ms => simp only [eraseFnBodies, collectItem, collectTraitMethods_eraseMember]
  | itemFn d body => rfl
  | itemImpl body => simp only [eraseFnBodies, collectItem, collectList_eraseFn]
  | itemMod v items => simp only [eraseFnBodies, collectItem, collectList_eraseFn]
  | itemOther => rfl

theorem collectList_eraseFn (cp : Bool) (src : String) (l : SynItems) :
    collectItems cp src (eraseFnBodiesList l) = collectItems cp src l := by
  cases l with
  | nil => rfl
  | cons i rest => simp only [eraseFnBodiesList, collectItems, collect_eraseFn, collectList_eraseFn]

theorem collectTraitMethods_eraseMember (src tn : String) (ms : TraitMembers) :
    collectTraitMethods src tn (eraseMemberBodies ms) = collectTraitMethods src tn ms := by
  cases ms with
  | nil => rfl
  | cons m rest =>
    cases m <;> simp only [eraseMemberBodies, collectTraitMethods, collectTraitMethods_eraseMember]
end

theorem collectTraitMethods_length (src tn : String) :
    ∀ ms : TraitMembers, (collectTraitMethods src tn ms).length = countFnMembers ms
  | .nil => rfl
  | .cons (.fnMember n a s b) rest => by
    simp [collectTraitMethods, countFnMembers, collectTraitMethods_length src tn rest]
  | .cons .constMember rest => by
    simp [collectTraitMethods, countFnMembers, collectTraitMethods_length src tn rest]
  | .cons .typeMember rest => by
    simp [collectTraitMethods, countFnMembers, collectTraitMethods_length src tn rest]
  | .cons .macroMember rest => by
    simp [collectTraitMethods, countFnMembers, collectTraitMethods_length src tn rest]

theorem collectTraitMethods_kind (src tn : String) :
    ∀ ms : TraitMembers, ∀ r ∈ collectTraitMethods src tn ms, r.kind = ItemKind.TraitMethod tn
  | .nil => by intro r hr; cases hr
  | .cons (.fnMember n a s b) rest => by
    intro r hr
    rcases List.mem_cons.mp hr with rfl | h
    · rfl
    · exact collectTraitMethods_kind src tn rest r h
  | .cons .constMember rest => fun r hr => collectTraitMethods_kind src tn rest r hr
  | .cons .typeMember rest => fun r hr => collectTraitMethods_kind src tn rest r hr
  | .cons .macroMember rest => fun r hr => collectTraitMethods_kind src tn rest r hr

/-! ### Claim theorems -/

/-- C9: `ParseError` is the only failure mode of the core.  `parse_rust_file`
fails exactly when the underlying syntactic parse fails (propagating its
message) and otherwise returns the collector's output; the markdown sample
extraction always returns `Ok`; unsupported-but-valid constructs contribute no
record and no error; and the comparator is a total function returning a
`ComparisonResult` for every pair of item lists and every ignored set. -/
theorem spec_claim_C9 :
    (∀ (e : String) (cp : Bool) (src : String), parse_rust_file (.error e) cp src = .error e) ∧
    (∀ (ast : SynItems) (cp : Bool) (src : String),
      parse_rust_file (.ok ast) cp src = .ok (collectItems cp src ast)) ∧
    (∀ events : List MdEvent, extract_rust_blocks_result events = .ok (extract_rust_blocks events)) ∧
    (∀ (cp : Bool) (src : String) (rest : SynItems),
      collectItems cp src (.cons .itemOther rest) = collectItems cp src rest) ∧
    (∀ (code_items spec_items : List RustItem) (ig : List String),
      ∃ r : ComparisonResult, compare_items code_items spec_items ig = r) := by
  refine ⟨fun _ _ _ => rfl, fun _ _ _ => rfl, fun _ => rfl, fun cp src rest => ?_,
    fun c s ig => ⟨_, rfl⟩⟩
  simp [collectItems, collectItem]

/-- C10: with `include_private = false`, restricted visibility (`pub(crate)`,
`pub(super)`, `pub(in path)`) is excluded exactly like the absence of a
qualifier: only the bare `pub` qualifier passes the inclusion gate. -/
theorem spec_claim_C10 (p source_text : String) (d : DeclData) (ms : TraitMembers) (body : SynItems) :
    should_include false (Vis.Restricted p) = false ∧
    should_include false Vis.Inherited = false ∧
    should_include false Vis.Public = true ∧
    should_include false (Vis.Restricted p) = should_include false Vis.Inherited ∧
    collectItem false source_text (.itemStruct { d with vis := Vis.Restricted p }) = [] ∧
    collectItem false source_text (.itemStruct { d with vis := Vis.Inherited }) = [] ∧
    collectItem false source_text (.itemEnum { d with vis := Vis.Restricted p }) = [] ∧
    collectItem false source_text (.itemEnum { d with vis := Vis.Inherited }) = [] ∧
    collectItem false source_text (.itemTrait { d with vis := Vis.Restricted p } ms) = [] ∧
    collectItem false source_text (.itemTrait { d with vis := Vis.Inherited } ms) = [] ∧
    collectItem false source_text (.itemFn { d with vis := Vis.Restricted p } body) = [] ∧
    collectItem false source_text (.itemFn { d with vis := Vis.Inherited } body) = [] ∧
    (∀ v : Vis, should_include false v = true ↔ v = Vis.Public) := by
  refine ⟨rfl, rfl, rfl, rfl, ?_, ?_, ?_, ?_, ?_, ?_, ?_, ?_, fun v => ?_⟩
  case refine_9 => cases v <;> simp [should_include]
  all_goals simp [collectItem, should_include]

/-- C3: a top-level declaration's record appears in the collector's output for
that item iff `include_private` is set or the item's visibility is the bare
`pub` qualifier; items with no visibility qualifier are excluded unless
`include_private` is set, and with `include_private = true` every item
appears. -/
theorem spec_claim_C3 (cp : Bool) (source_text : String) (d : DeclData) (ms : TraitMembers) (body : SynItems) :
    (mkItem source_text d.name .Struct d.stripped d.attrs ∈ collectItem cp source_text (.itemStruct d)
      ↔ (cp = true ∨ d.vis = Vis.Public)) ∧
    (mkItem source_text d.name .Enum d.stripped d.attrs ∈ collectItem cp source_text (.itemEnum d)
      ↔ (cp = true ∨ d.vis = Vis.Public)) ∧
    (mkItem source_text d.name .Trait d.stripped d.attrs ∈ collectItem cp source_text (.itemTrait d ms)
      ↔ (cp = true ∨ d.vis = Vis.Public)) ∧
    (mkItem source_text d.name .Function d.stripped d.attrs ∈ collectItem cp source_text (.itemFn d body)
      ↔ (cp = true ∨ d.vis = Vis.Public)) ∧
    (∀ v : Vis, should_include cp v = true ↔ (cp = true ∨ v = Vis.Public)) := by
  refine ⟨?_, ?_, ?_, ?_, should_include_iff cp⟩
  all_goals rw [← should_include_iff cp d.vis]
  all_goals by_cases hg : should_include cp d.vis = true
  all_goals simp [collectItem, hg]

/-- C2 counterexample: a public struct declared inside the body of an impl
method is collected (the default visitor recurses into impl blocks), while a
collector following the spec's words collects nothing from inside an impl
block; so the claim that no collected declaration originates from inside an
impl block is false.  The failing source is
`impl T (fn m () (pub struct Hidden ;))` in Rust surface syntax. -/
theorem spec_claim_C2_counterexample :
    collectItems false ""
        (.cons (.itemImpl (.cons (.itemStruct ⟨Vis.Public, "Hidden", [], "struct Hidden ;"⟩) .nil)) .nil)
      ≠ collectItemsNoImpl false ""
        (.cons (.itemImpl (.cons (.itemStruct ⟨Vis.Public, "Hidden", [], "struct Hidden ;"⟩) .nil)) .nil) ∧
    collectItems false ""
        (.cons (.itemImpl (.cons (.itemStruct ⟨Vis.Public, "Hidden", [], "struct Hidden ;"⟩) .nil)) .nil)
      = [mkItem "" "Hidden" .Struct "struct Hidden ;" []] ∧
    collectItemsNoImpl false ""
        (.cons (.itemImpl (.cons (.itemStruct ⟨Vis.Public, "Hidden", [], "struct Hidden ;"⟩) .nil)) .nil)
      = [] := by
  refine ⟨?_, ?_, ?_⟩ <;> decide

/-- C2 amended: extraction never collects a declaration nested inside the body
of a `fn` item or inside a trait method's default body (erasing all such
bodies never changes the output); declarations nested inside an impl block's
method bodies, however, are traversed exactly as if they stood at module
scope. -/
theorem spec_claim_C2 (cp : Bool) (src : String) (items : SynItems) :
    collectItems cp src (eraseFnBodiesList items) = collectItems cp src items ∧
    (∀ body : SynItems, collectItem cp src (.itemImpl body) = collectItems cp src body) :=
  ⟨collectList_eraseFn cp src items, fun _ => rfl⟩

/-- C1 (amended): for every declaration list whose identity keys are pairwise
distinct, comparing the list against itself yields a result whose four lists
are all empty and whose `has_errors` is false; and, for every comparison
result, `has_errors` is true iff at least one of the four lists is non-empty.
(The unrestricted claim fails for lists with duplicate identity keys, see the
counterexample.) -/
theorem spec_claim_C1 (l : List RustItem) (ignored : List String)
    (hd : l.Pairwise (fun a b => itemKey a ≠ itemKey b)) :
    (compare_items l l ignored).missing_in_spec = [] ∧
    (compare_items l l ignored).missing_in_code = [] ∧
    (compare_items l l ignored).signature_mismatches = [] ∧
    (compare_items l l ignored).attribute_mismatches = [] ∧
    (compare_items l l ignored).has_errors = false ∧
    (∀ r : ComparisonResult, r.has_errors = true ↔
      (r.missing_in_spec ≠ [] ∨ r.missing_in_code ≠ [] ∨
       r.signature_mismatches ≠ [] ∨ r.attribute_mismatches ≠ [])) := by
  have h1 : (compare_items l l ignored).missing_in_spec = [] := by
    apply List.filter_eq_nil_iff.mpr
    intro it hit
    rw [lookupKey_self l it hd hit]
    simp
  have h2 : (compare_items l l ignored).missing_in_code = [] := by
    apply List.filter_eq_nil_iff.mpr
    intro it hit
    rw [lookupKey_self l it hd hit]
    simp
  have h3 : (compare_items l l ignored).signature_mismatches = [] := by
    apply List.filterMap_eq_nil_iff.mpr
    intro it hit
    simp only [lookupKey_self l it hd hit]
    simp
  have h4 : (compare_items l l ignored).attribute_mismatches = [] := by
    apply List.filterMap_eq_nil_iff.mpr
    intro it hit
    simp only [lookupKey_self l it hd hit]
    simp
  refine ⟨h1, h2, h3, h4, ?_, ?_⟩
  · simp [ComparisonResult.has_errors, h1, h2, h3, h4]
  · intro r
    simp [ComparisonResult.has_errors, List.isEmpty_iff]
    tauto

/-- C1 counterexample: a list holding two items with the same identity key but
different token streams; comparing it against itself records a signature
mismatch (the first duplicate is compared against the last-inserted one), so
`has_errors` is true, refuting the unrestricted claim. -/
theorem spec_claim_C1_counterexample :
    (compare_items
        [⟨"a", ItemKind.Struct, "struct a (x)", "struct a (x)", [], 1⟩,
         ⟨"a", ItemKind.Struct, "struct a (y)", "struct a (y)", [], 2⟩]
        [⟨"a", ItemKind.Struct, "struct a (x)", "struct a (x)", [], 1⟩,
         ⟨"a", ItemKind.Struct, "struct a (y)", "struct a (y)", [], 2⟩]
        []).signature_mismatches ≠ [] ∧
    (compare_items
        [⟨"a", ItemKind.Struct, "struct a (x)", "struct a (x)", [], 1⟩,
         ⟨"a", ItemKind.Struct, "struct a (y)", "struct a (y)", [], 2⟩]
        [⟨"a", ItemKind.Struct, "struct a (x)", "struct a (x)", [], 1⟩,
         ⟨"a", ItemKind.Struct, "struct a (y)", "struct a (y)", [], 2⟩]
        []).has_errors = true := by
  refine ⟨?_, ?_⟩ <;> decide

theorem spec_claim_C1_witness :
    ([⟨"Foo", ItemKind.Struct, "struct Foo ;", "struct Foo ;", [], 1⟩,
      ⟨"bar", ItemKind.Function, "fn bar ()", "fn bar ()", [], 2⟩] : List RustItem).Pairwise
        (fun a b => itemKey a ≠ itemKey b) ∧
    (compare_items
        [⟨"Foo", ItemKind.Struct, "struct Foo ;", "struct Foo ;", [], 1⟩,
         ⟨"bar", ItemKind.Function, "fn bar ()", "fn bar ()", [], 2⟩]
        [⟨"Foo", ItemKind.Struct, "struct Foo ;", "struct Foo ;", [], 1⟩,
         ⟨"bar", ItemKind.Function, "fn bar ()", "fn bar ()", [], 2⟩]
        []).has_errors = false :=
  ⟨by decide,
    (spec_claim_C1
      [⟨"Foo", ItemKind.Struct, "struct Foo ;", "struct Foo ;", [], 1⟩,
       ⟨"bar", ItemKind.Function, "fn bar ()", "fn bar ()", [], 2⟩]
      [] (by decide)).2.2.2.2.1⟩

/-- C4: a trait passing the inclusion gate yields exactly one `Trait` record
followed by one `TraitMethod` record per method signature (so one plus the
number of method signatures in total, and exactly two for a trait with a
single method); every emitted method record carries the owning trait's name in
its kind; associated consts, types and macros produce no record. -/
theorem spec_claim_C4 (cp : Bool) (src : String) (d : DeclData) (ms : TraitMembers)
    (h : should_include cp d.vis = true) :
    collectItem cp src (.itemTrait d ms)
      = mkItem src d.name .Trait d.stripped d.attrs :: collectTraitMethods src d.name ms ∧
    (collectItem cp src (.itemTrait d ms)).length = 1 + countFnMembers ms ∧
    (∀ r ∈ collectTraitMethods src d.name ms, r.kind = ItemKind.TraitMethod d.name) ∧
    (∀ (n : String) (attrs : List String) (stripped : String) (dBody : SynItems) (rest : TraitMembers),
      collectTraitMethods src d.name (.cons (.fnMember n attrs stripped dBody) rest)
        = mkItem src n (ItemKind.TraitMethod d.name) stripped attrs :: collectTraitMethods src d.name rest) ∧
    (∀ rest : TraitMembers,
      collectTraitMethods src d.name (.cons .constMember rest) = collectTraitMethods src d.name rest ∧
      collectTraitMethods src d.name (.cons .typeMember rest) = collectTraitMethods src d.name rest ∧
      collectTraitMethods src d.name (.cons .macroMember rest) = collectTraitMethods src d.name rest) := by
  have hc : collectItem cp src (.itemTrait d ms)
      = mkItem src d.name .Trait d.stripped d.attrs :: collectTraitMethods src d.name ms := by
    simp [collectItem, h]
  refine ⟨hc, ?_, collectTraitMethods_kind src d.name ms,
    fun n attrs stripped dBody rest => rfl, fun rest => ⟨rfl, rfl, rfl⟩⟩
  rw [hc]
  simp [collectTraitMethods_length src d.name ms]
  omega

theorem spec_claim_C4_witness :
    (collectItem false ""
      (.itemTrait ⟨Vis.Public, "MyTrait", [], "trait MyTrait : ;"⟩
        (.cons (.fnMember "method" [] "fn method (& self) -> i32 ;" .nil) .nil))).length
      = 1 + countFnMembers (.cons (.fnMember "method" [] "fn method (& self) -> i32 ;" .nil) .nil) :=
  (spec_claim_C4 false "" ⟨Vis.Public, "MyTrait", [], "trait MyTrait : ;"⟩
    (.cons (.fnMember "method" [] "fn method (& self) -> i32 ;" .nil) .nil) (by decide)).2.1

/-- C5: two declaration source texts with the same token sequence (differing
only in whitespace/formatting) have textually equal normalized forms, and
comparing the corresponding extracted items reports no signature mismatch. -/
theorem spec_claim_C5 (n : String) (k : ItemKind) (s1 s2 : String) (ig : List String)
    (h : rustTokens s1 = rustTokens s2) :
    normalized_form_of s1 = normalized_form_of s2 ∧
    (compare_items [parsedDeclItem n k s1] [parsedDeclItem n k s2] ig).signature_mismatches = [] := by
  have hn : normalized_form_of s1 = normalized_form_of s2 := by
    unfold normalized_form_of
    rw [h]
  refine ⟨hn, ?_⟩
  have hl : lookupKey [parsedDeclItem n k s2] (itemKey (parsedDeclItem n k s1))
      = some (parsedDeclItem n k s2) :=
    lookupKey_singleton _ _ rfl
  have hne : ¬ ((parsedDeclItem n k s1).tokens ≠ (parsedDeclItem n k s2).tokens) := by
    simp [parsedDeclItem, hn]
  simp only [compare_items, List.filterMap_cons, List.filterMap_nil, hl]
  rw [if_neg hne]

theorem spec_claim_C5_witness :
    "struct Foo \x7b pub x : i32 \x7d" ≠ "struct Foo\x7bpub x:i32\x7d" ∧
    rustTokens "struct Foo \x7b pub x : i32 \x7d" = rustTokens "struct Foo\x7bpub x:i32\x7d" ∧
    (compare_items
        [parsedDeclItem "Foo" ItemKind.Struct "struct Foo \x7b pub x : i32 \x7d"]
        [parsedDeclItem "Foo" ItemKind.Struct "struct Foo\x7bpub x:i32\x7d"]
        []).signature_mismatches = [] :=
  ⟨by decide, by decide,
    (spec_claim_C5 "Foo" ItemKind.Struct
      "struct Foo \x7b pub x : i32 \x7d" "struct Foo\x7bpub x:i32\x7d" [] (by decide)).2⟩

theorem positionAux_zip_self (l : List Char) :
    positionAux (fun p => p.1 != p.2) (l.zip l) = none := by
  induction l with
  | nil => rfl
  | cons c cs ih =>
    rw [List.zip_cons_cons]
    simp only [positionAux]
    rw [ih]
    simp

theorem positionAux_zip_self_append (l ext : List Char) :
    positionAux (fun p => p.1 != p.2) (l.zip (l ++ ext)) = none := by
  induction l with
  | nil => rfl
  | cons c cs ih =>
    rw [List.cons_append, List.zip_cons_cons]
    simp only [positionAux]
    rw [ih]
    simp

theorem positionAux_zip_append_self (l ext : List Char) :
    positionAux (fun p => p.1 != p.2) ((l ++ ext).zip l) = none := by
  induction l with
  | nil => cases ext <;> rfl
  | cons c cs ih =>
    rw [List.cons_append, List.zip_cons_cons]
    simp only [positionAux]
    rw [ih]
    simp

theorem positionAux_zip_first_diff (pre r1 r2 : List Char) (c1 c2 : Char) (hne : c1 ≠ c2) :
    positionAux (fun p => p.1 != p.2) ((pre ++ c1 :: r1).zip (pre ++ c2 :: r2)) = some pre.length := by
  induction pre with
  | nil =>
    rw [List.nil_append, List.nil_append, List.zip_cons_cons]
    simp [positionAux, hne]
  | cons c cs ih =>
    rw [List.cons_append, List.cons_append, List.zip_cons_cons]
    simp only [positionAux]
    rw [ih]
    simp

theorem utf8Len_append_lt (l ext : List Char) (h : ext ≠ []) :
    utf8Len (String.mk l) < utf8Len (String.mk (l ++ ext)) := by
  show (l.map (fun c => c.utf8Size)).sum < ((l ++ ext).map (fun c => c.utf8Size)).sum
  rw [List.map_append, List.sum_append]
  cases ext with
  | nil => exact absurd rfl h
  | cons c cs =>
    have hpos := Char.utf8Size_pos c
    simp only [List.map_cons, List.sum_cons]
    omega

theorem find_first_diff_self (t : String) : find_first_diff t t = none := by
  unfold find_first_diff
  rw [positionAux_zip_self]
  simp

theorem find_first_diff_first (pre r1 r2 : List Char) (c1 c2 : Char) (hne : c1 ≠ c2) :
    find_first_diff (String.mk (pre ++ c1 :: r1)) (String.mk (pre ++ c2 :: r2)) = some pre.length := by
  unfold find_first_diff
  rw [show (String.mk (pre ++ c1 :: r1)).data = pre ++ c1 :: r1 from rfl,
      show (String.mk (pre ++ c2 :: r2)).data = pre ++ c2 :: r2 from rfl,
      positionAux_zip_first_diff pre r1 r2 c1 c2 hne]

theorem find_first_diff_pre_left (l ext : List Char) (h : ext ≠ []) :
    find_first_diff (String.mk l) (String.mk (l ++ ext)) = some (utf8Len (String.mk l)) := by
  have hlt := utf8Len_append_lt l ext h
  unfold find_first_diff
  rw [show (String.mk l).data = l from rfl,
      show (String.mk (l ++ ext)).data = l ++ ext from rfl,
      positionAux_zip_self_append]
  simp only []
  rw [if_pos (Nat.ne_of_lt hlt), Nat.min_eq_left (Nat.le_of_lt hlt)]

theorem find_first_diff_pre_right (l ext : List Char) (h : ext ≠ []) :
    find_first_diff (String.mk (l ++ ext)) (String.mk l) = some (utf8Len (String.mk l)) := by
  have hlt := utf8Len_append_lt l ext h
  unfold find_first_diff
  rw [show (String.mk l).data = l from rfl,
      show (String.mk (l ++ ext)).data = l ++ ext from rfl,
      positionAux_zip_append_self]
  simp only []
  rw [if_pos (Nat.ne_of_gt hlt), Nat.min_eq_right (Nat.le_of_lt hlt)]

/-- C6: for a matched pair whose token streams differ, `compare_items` records
exactly one signature mismatch carrying `find_first_diff` of the two signature
strings; and `find_first_diff` returns the position of the first differing
character when the strings diverge at some character, the byte length of the
shorter string when one is a strict prefix of the other (Rust `str::len` is
the byte length), and no offset when the strings are identical. -/
theorem spec_claim_C6 (c s : RustItem) (ig : List String)
    (hk : itemKey c = itemKey s) (ht : c.tokens ≠ s.tokens) :
    (compare_items [c] [s] ig).signature_mismatches =
      [{ code_item := c, spec_item := s,
         first_diff_pos := find_first_diff c.signature s.signature }] ∧
    (∀ (pre r1 r2 : List Char) (c1 c2 : Char), c1 ≠ c2 →
      find_first_diff (String.mk (pre ++ c1 :: r1)) (String.mk (pre ++ c2 :: r2)) = some pre.length) ∧
    (∀ l ext : List Char, ext ≠ [] →
      find_first_diff (String.mk l) (String.mk (l ++ ext)) = some (utf8Len (String.mk l)) ∧
      find_first_diff (String.mk (l ++ ext)) (String.mk l) = some (utf8Len (String.mk l))) ∧
    (∀ t : String, find_first_diff t t = none) := by
  refine ⟨?_, fun pre r1 r2 c1 c2 h => find_first_diff_first pre r1 r2 c1 c2 h,
    fun l ext h => ⟨find_first_diff_pre_left l ext h, find_first_diff_pre_right l ext h⟩,
    find_first_diff_self⟩
  have hl : lookupKey [s] (itemKey c) = some s := lookupKey_singleton c s hk
  simp only [compare_items, List.filterMap_cons, List.filterMap_nil, hl]
  rw [if_pos ht]

theorem spec_claim_C6_witness :
    (compare_items
        [⟨"f", ItemKind.Function, "fn f ()", "fn f ()", [], 1⟩]
        [⟨"f", ItemKind.Function, "fn f (x : i32)", "fn f (x : i32)", [], 1⟩]
        []).signature_mismatches =
      [⟨⟨"f", ItemKind.Function, "fn f ()", "fn f ()", [], 1⟩,
        ⟨"f", ItemKind.Function, "fn f (x : i32)", "fn f (x : i32)", [], 1⟩,
        find_first_diff "fn f ()" "fn f (x : i32)"⟩] :=
  (spec_claim_C6
    ⟨"f", ItemKind.Function, "fn f ()", "fn f ()", [], 1⟩
    ⟨"f", ItemKind.Function, "fn f (x : i32)", "fn f (x : i32)", [], 1⟩
    [] (by decide) (by decide)).1

theorem listIsSub_of_pre (p l : List Char) (h : listIsPre p l = true) : listIsSub p l = true := by
  cases l with
  | nil =>
    cases p with
    | nil => rfl
    | cons x xs => simp [listIsPre] at h
  | cons c cs => simp [listIsSub, h]

theorem listIsPre_append_left (u v : List Char) :
    ∀ l : List Char, listIsPre (u ++ v) l = true → listIsPre u l = true := by
  induction u with
  | nil => intro l _; rfl
  | cons x u' ih =>
    intro l h
    cases l with
    | nil => simp [listIsPre] at h
    | cons c cs =>
      rw [List.cons_append] at h
      simp only [listIsPre, Bool.and_eq_true] at h ⊢
      exact ⟨h.1, ih cs h.2⟩

theorem listIsSub_of_mid (u v w : List Char) :
    ∀ l : List Char, listIsPre (u ++ (v ++ w)) l = true → listIsSub v l = true := by
  induction u with
  | nil =>
    intro l h
    rw [List.nil_append] at h
    exact listIsSub_of_pre v l (listIsPre_append_left v w l h)
  | cons x u' ih =>
    intro l h
    cases l with
    | nil => simp [listIsPre] at h
    | cons c cs =>
      rw [List.cons_append] at h
      simp only [listIsPre, Bool.and_eq_true] at h
      have hsub := ih cs h.2
      simp [listIsSub, hsub]

theorem contains_of_startsWith_mid (a pre ig post : String)
    (h : strStartsWith a (pre ++ ig ++ post) = true) : strContains a ig = true := by
  unfold strStartsWith at h
  unfold strContains
  apply listIsSub_of_mid pre.data ig.data post.data a.data
  have hd : (pre ++ ig ++ post).data = pre.data ++ (ig.data ++ post.data) := by
    simp [String.data_append, List.append_assoc]
  rwa [hd] at h

theorem attr_filter_pred (a ignored : String) :
    (strContains a ignored
        || strStartsWith a ("#[" ++ ignored ++ "(")
        || strStartsWith a ("#[" ++ ignored))
      = strContains a ignored := by
  have h1 : strStartsWith a ("#[" ++ ignored ++ "(") = true → strContains a ignored = true :=
    fun h => contains_of_startsWith_mid a "#[" ignored "(" h
  have h2 : strStartsWith a ("#[" ++ ignored) = true → strContains a ignored = true := by
    intro h
    apply contains_of_startsWith_mid a "#[" ignored ""
    rwa [String.append_empty]
  cases hx : strContains a ignored with
  | true => simp
  | false =>
    cases hy : strStartsWith a ("#[" ++ ignored ++ "(") with
    | true => rw [h1 hy] at hx; cases hx
    | false =>
      cases hz : strStartsWith a ("#[" ++ ignored) with
      | true => rw [h2 hz] at hx; cases hx
      | false => simp

/-- C7 (amended): for a matched pair, `compare_items` records an attribute
mismatch iff the two attribute lists, each filtered by dropping every
attribute in which any ignored name occurs as a substring, then trimmed of
surrounding whitespace and sorted lexicographically, are not exactly equal;
the two starts-with shapes of the source filter are subsumed by the substring
test; and the attribute comparison is independent of the token streams (hence
of whether a signature mismatch was recorded).  (The claim's literal reading,
which omits the trimming step, fails; see the counterexample.) -/
theorem spec_claim_C7 (c s : RustItem) (ig : List String) (hk : itemKey c = itemKey s) :
    (compare_items [c] [s] ig).attribute_mismatches =
      (if normalize_attributes c.attributes ig ≠ normalize_attributes s.attributes ig
       then [{ code_item := c, spec_item := s }] else []) ∧
    (∀ attrs igs : List String,
      normalize_attributes attrs igs
        = sortStrings ((attrs.filter (fun a =>
            ! igs.any (fun ign => strContains a ign))).map rustTrim)) ∧
    (∀ t1 t2 : String,
      (compare_items [{ c with tokens := t1 }] [{ s with tokens := t2 }] ig).attribute_mismatches =
        (if normalize_attributes c.attributes ig ≠ normalize_attributes s.attributes ig
         then [{ code_item := { c with tokens := t1 }, spec_item := { s with tokens := t2 } }]
         else [])) := by
  have key : ∀ t1 t2 : String,
      lookupKey [{ s with tokens := t2 }] (itemKey { c with tokens := t1 })
        = some { s with tokens := t2 } := by
    intro t1 t2
    apply lookupKey_singleton
    simpa [itemKey] using hk
  have main : ∀ t1 t2 : String,
      (compare_items [{ c with tokens := t1 }] [{ s with tokens := t2 }] ig).attribute_mismatches =
        (if normalize_attributes c.attributes ig ≠ normalize_attributes s.attributes ig
         then [{ code_item := { c with tokens := t1 }, spec_item := { s with tokens := t2 } }]
         else []) := by
    intro t1 t2
    simp only [compare_items, List.filterMap_cons, List.filterMap_nil, key t1 t2]
    by_cases hne : normalize_attributes c.attributes ig ≠ normalize_attributes s.attributes ig
    · rw [if_pos hne, if_pos hne]
    · rw [if_neg hne, if_neg hne]
  have norm_eq : ∀ attrs igs : List String,
      normalize_attributes attrs igs
        = sortStrings ((attrs.filter (fun a =>
            ! igs.any (fun ign => strContains a ign))).map rustTrim) := by
    intro attrs igs
    simp only [normalize_attributes, attr_filter_pred]
  refine ⟨?_, norm_eq, main⟩
  have h := main c.tokens s.tokens
  simpa using h

/-- C7 counterexample: with no ignored names, attributes `"x "` and `"x"`
give different filtered-and-sorted lists under the claim's stated comparison,
yet the code records no attribute mismatch, because it trims each attribute
before comparing — a step the claim omits. -/
theorem spec_claim_C7_counterexample :
    (compare_items
        [⟨"a", ItemKind.Struct, "sig", "tok", ["x "], 1⟩]
        [⟨"a", ItemKind.Struct, "sig", "tok", ["x"], 1⟩]
        []).attribute_mismatches = [] ∧
    normalize_attributes_claim ["x "] [] ≠ normalize_attributes_claim ["x"] [] := by
  refine ⟨?_, ?_⟩ <;> decide

theorem spec_claim_C7_witness :
    (compare_items
        [⟨"Foo", ItemKind.Struct, "struct Foo ;", "struct Foo ;",
          ["# [derive (Debug)]", "# [doc = \"code doc\"]"], 1⟩]
        [⟨"Foo", ItemKind.Struct, "struct Foo ;", "struct Foo ;",
          ["# [doc = \"spec doc\"]"], 1⟩]
        ["doc"]).attribute_mismatches =
      [⟨⟨"Foo", ItemKind.Struct, "struct Foo ;", "struct Foo ;",
          ["# [derive (Debug)]", "# [doc = \"code doc\"]"], 1⟩,
        ⟨"Foo", ItemKind.Struct, "struct Foo ;", "struct Foo ;",
          ["# [doc = \"spec doc\"]"], 1⟩⟩] := by
  have h := (spec_claim_C7
    ⟨"Foo", ItemKind.Struct, "struct Foo ;", "struct Foo ;",
      ["# [derive (Debug)]", "# [doc = \"code doc\"]"], 1⟩
    ⟨"Foo", ItemKind.Struct, "struct Foo ;", "struct Foo ;",
      ["# [doc = \"spec doc\"]"], 1⟩
    ["doc"] rfl).1
  rw [h]
  decide

theorem docEvents_cons (b : MdBlock) (doc : List MdBlock) :
    docEvents (b :: doc) = blockEvents b ++ docEvents doc := by
  simp [docEvents]

theorem extract_go_false_acc (es : List MdEvent) :
    ∀ cur1 cur2 : String,
      extract_rust_blocks_go es false cur1 = extract_rust_blocks_go es false cur2 := by
  induction es with
  | nil => intro cur1 cur2; rfl
  | cons e rest ih =>
    intro cur1 cur2
    cases e with
    | startFence lang =>
      by_cases h : lang = "rust"
      · simp [extract_rust_blocks_go, h]
      · simp only [extract_rust_blocks_go, if_neg h]
        exact ih cur1 cur2
    | endFence lang =>
      simp only [extract_rust_blocks_go]
      rw [if_neg (by simp), if_neg (by simp)]
      exact ih cur1 cur2
    | text t =>
      simp only [extract_rust_blocks_go, Bool.false_eq_true, if_false]
      exact ih cur1 cur2
    | other =>
      simp only [extract_rust_blocks_go]
      exact ih cur1 cur2

theorem extract_go_text_false (ts : List String) (es : List MdEvent) (cur : String) :
    extract_rust_blocks_go (ts.map MdEvent.text ++ es) false cur
      = extract_rust_blocks_go es false cur := by
  induction ts generalizing cur with
  | nil => rfl
  | cons t ts ih =>
    simp only [List.map_cons, List.cons_append, extract_rust_blocks_go,
      Bool.false_eq_true, if_false]
    exact ih cur

theorem extract_go_text_true (ts : List String) (es : List MdEvent) (cur : String) :
    extract_rust_blocks_go (ts.map MdEvent.text ++ es) true cur
      = extract_rust_blocks_go es true (accAppend cur ts) := by
  induction ts generalizing cur with
  | nil => rfl
  | cons t ts ih =>
    simp only [List.map_cons, List.cons_append, extract_rust_blocks_go, if_true]
    rw [show accAppend cur (t :: ts) = accAppend (cur ++ t) ts from rfl]
    exact ih (cur ++ t)

theorem extract_go_doc (doc : List MdBlock) (es : List MdEvent) (cur : String) :
    extract_rust_blocks_go (docEvents doc ++ es) false cur
      = rustSamples doc ++ extract_rust_blocks_go es false cur := by
  induction doc generalizing cur with
  | nil => simp [docEvents, rustSamples]
  | cons b doc ih =>
    rw [docEvents_cons, List.append_assoc]
    cases b with
    | codeBlock lang ts =>
      by_cases h : lang = "rust"
      · subst h
        simp only [blockEvents, List.cons_append, extract_rust_blocks_go, if_pos rfl,
          List.append_eq, List.append_assoc, List.singleton_append]
        rw [extract_go_text_true ts _ ""]
        simp only [extract_rust_blocks_go, List.nil_append]
        rw [if_pos trivial]
        rw [extract_go_false_acc _ (accAppend "" ts) cur, ih cur]
        simp [rustSamples]
      · simp only [blockEvents, List.cons_append, extract_rust_blocks_go, if_neg h,
          List.append_eq, List.append_assoc, List.singleton_append]
        rw [extract_go_text_false ts _ cur]
        simp only [extract_rust_blocks_go, List.nil_append]
        rw [if_neg (by simp [h])]
        rw [ih cur]
        simp [rustSamples, h]
    | textRun ts =>
      simp only [blockEvents]
      rw [extract_go_text_false ts _ cur, ih cur]
      simp [rustSamples]
    | otherEvent =>
      simp only [blockEvents, List.cons_append, extract_rust_blocks_go,
        List.append_eq, List.nil_append]
      rw [ih cur]
      simp [rustSamples]

/-- C8: over balanced pulldown-cmark event streams, `extract_rust_blocks`
returns exactly the concatenated contents of the fenced blocks whose tag is
exactly `"rust"` (case-sensitive), in document order; a document whose fences
all carry another tag yields no samples; two rust fences yield exactly two
samples in order; and a trailing unterminated rust fence leaks nothing into
the result. -/
theorem spec_claim_C8 (doc : List MdBlock) (leak ts ts2 : List String) :
    extract_rust_blocks (docEvents doc) = rustSamples doc ∧
    extract_rust_blocks (docEvents doc ++ MdEvent.startFence "rust" :: leak.map MdEvent.text)
      = rustSamples doc ∧
    extract_rust_blocks (docEvents [MdBlock.codeBlock "python" ["sample text"]]) = [] ∧
    extract_rust_blocks (docEvents [MdBlock.codeBlock "Rust" ["sample text"]]) = [] ∧
    extract_rust_blocks (docEvents [MdBlock.codeBlock "rust" ts, MdBlock.textRun leak,
        MdBlock.codeBlock "rust" ts2])
      = [accAppend "" ts, accAppend "" ts2] := by
  have base : ∀ d : List MdBlock, extract_rust_blocks (docEvents d) = rustSamples d := by
    intro d
    have h := extract_go_doc d [] ""
    rw [List.append_nil] at h
    unfold extract_rust_blocks
    rw [h]
    simp [extract_rust_blocks_go]
  refine ⟨base doc, ?_, ?_, ?_, ?_⟩
  · unfold extract_rust_blocks
    rw [extract_go_doc doc _ ""]
    simp only [extract_rust_blocks_go, if_pos rfl]
    have h := extract_go_text_true leak [] ""
    rw [List.append_nil] at h
    rw [h]
    simp [extract_rust_blocks_go]
  · rw [base]
    decide
  · rw [base]
    decide
  · rw [base]
    simp [rustSamples]
